import Mathlib

/-!
# Verification of the cross-market ETL metadata-driven storage engine

Shallow embedding of the core of the `cross-market-etl-pipeline` repository:
the symbol-table naming function, the record validator, the transactional
batch upserter, the batched streaming ingest loop, the metadata rescan
aggregate and the incremental update planner, together with proofs of the
spec's testable properties.

Modelling conventions:
* JavaScript strings are lists of Unicode code points (`JStr := List Nat`);
  `toLowerCase` is modelled on the ASCII range actually used by symbol,
  timeframe and exchange identifiers.
* JavaScript `Date` values are integers: milliseconds since the Unix epoch,
  interpreted in UTC.  An invalid `Date` (`NaN` time value) is `none`.
* Decimal/`parseFloat` numbers are rationals; an unparseable field
  (JavaScript `NaN`) is `none`.
* The database table behind one `(symbol, timeframe, exchange?)` target is a
  list of rows in insertion order; the primary key on `timestamp` is an
  invariant proved, not assumed.  Transactions are modelled by explicit
  state passing: a transaction works on a copy of the table, `COMMIT`
  publishes the copy and `ROLLBACK` discards it.
* Database-level failures (the environment aborting a statement) are
  injected through an `oracle` parameter: `oracle r = some e` means the
  `INSERT ... ON CONFLICT` statement for record `r` raises error `e`.
-/

namespace CrossMarketETL

/-- A JavaScript string as a list of Unicode code points. -/
abbrev JStr := List Nat

/-- ASCII lower-casing of one code point, as `String.prototype.toLowerCase`
acts on the identifiers used for table names. -/
def lowerChar (c : Nat) : Nat :=
  if 65 ≤ c ∧ c ≤ 90 then c + 32 else c

/-- `s.toLowerCase()` over the ASCII range. -/
def lowerStr (s : JStr) : JStr := s.map lowerChar

/-- `s.replace(SLASH, EMPTY)`: JavaScript `replace` with a string pattern
removes only the first occurrence of `'/'` (code point 47). -/
def removeFirstSlash : JStr → JStr
  | [] => []
  | c :: cs => if c = 47 then cs else c :: removeFirstSlash cs

/-- Code points of a character list; helper for writing concrete strings. -/
def encChars (s : List Char) : JStr := s.map Char.toNat

/-- The string `tradfi`. -/
def tradfiStr : JStr := encChars (['t', 'r', 'a', 'd', 'f', 'i'])

/-- The string `crypto`. -/
def cryptoStr : JStr := encChars (['c', 'r', 'y', 'p', 't', 'o'])

/-- The string `_`. -/
def usStr : JStr := encChars (['_'])

/-- The string `_tradfi_ohlcv`. -/
def tradfiSuffix : JStr :=
  encChars (['_', 't', 'r', 'a', 'd', 'f', 'i', '_', 'o', 'h', 'l', 'c', 'v'])

/-- The string `_crypto_ohlcv`. -/
def cryptoSuffix : JStr :=
  encChars (['_', 'c', 'r', 'y', 'p', 't', 'o', '_', 'o', 'h', 'l', 'c', 'v'])

/-- Errors thrown by the JavaScript code paths modelled here. -/
inductive JsError where
  /-- `TypeError: Cannot read properties of null (reading toLowerCase)` —
  raised when `exchange.toLowerCase()` dereferences `null`/`undefined`. -/
  | typeErrorNullExchange : JsError
  /-- `Error: Invalid asset type: ...` thrown by `getTableName`. -/
  | invalidAssetType : JsError
  deriving Repr, DecidableEq

/-- `SymbolDatabaseManager.getTableName(symbol, assetType, timeframe, exchange)`.

```js
if (assetType === 'tradfi') {
  return symbol.toLowerCase() + '_' + timeframe.toLowerCase() + '_tradfi_ohlcv';
} else if (assetType === 'crypto') {
  const cleanSymbol = symbol.replace(SLASH, EMPTY).toLowerCase();
  return cleanSymbol + '_' + timeframe.toLowerCase() + '_'
       + exchange.toLowerCase() + '_crypto_ohlcv';
} else {
  throw new Error('Invalid asset type: ' + assetType);
}
```
A `null`/`undefined` exchange makes `exchange.toLowerCase()` throw. -/
def getTableName (symbol assetType timeframe : JStr) (exchange : Option JStr) :
    Except JsError JStr :=
  if assetType = tradfiStr then
    .ok (lowerStr symbol ++ usStr ++ lowerStr timeframe ++ tradfiSuffix)
  else if assetType = cryptoStr then
    match exchange with
    | some ex =>
        .ok (lowerStr (removeFirstSlash symbol) ++ usStr ++ lowerStr timeframe
              ++ usStr ++ lowerStr ex ++ cryptoSuffix)
    | none => .error JsError.typeErrorNullExchange
  else
    .error JsError.invalidAssetType

theorem lowerChar_idem (c : Nat) : lowerChar (lowerChar c) = lowerChar c := by
  unfold lowerChar
  split
  · simp
    omega
  · rfl

theorem lowerStr_idem (s : JStr) : lowerStr (lowerStr s) = lowerStr s := by
  simp [lowerStr, List.map_map, Function.comp_def, lowerChar_idem]

theorem lowerChar_eq_slash_iff (c : Nat) : lowerChar c = 47 ↔ c = 47 := by
  unfold lowerChar
  split <;> omega

theorem removeFirstSlash_lowerStr (s : JStr) :
    removeFirstSlash (lowerStr s) = lowerStr (removeFirstSlash s) := by
  induction s with
  | nil => rfl
  | cons c cs ih =>
      by_cases h : c = 47
      · simp [lowerStr, removeFirstSlash, h, lowerChar]
      · have h' : ¬ lowerChar c = 47 := fun hc => h ((lowerChar_eq_slash_iff c).mp hc)
        simp only [lowerStr, List.map_cons, removeFirstSlash, if_neg h', if_neg h]
        simpa [lowerStr] using ih

/-- C7: `getTableName` is a pure function of its arguments: every tradfi
target yields `lower(symbol)_lower(timeframe)_tradfi_ohlcv`, every crypto
target yields
`lower(symbol with the first '/' removed)_lower(timeframe)_lower(exchange)_crypto_ohlcv`,
and symbol casing variations (`EURUSD` vs `eurusd`) yield the same name.
Determinism of two calls on identical inputs is the statement that
`getTableName` is a well-defined function of exactly these arguments, which
the embedding exhibits. -/
theorem getTableName_format_and_casing :
    (∀ symbol timeframe exchange,
        getTableName symbol tradfiStr timeframe exchange =
          .ok (lowerStr symbol ++ usStr ++ lowerStr timeframe ++ tradfiSuffix)) ∧
    (∀ symbol timeframe ex,
        getTableName symbol cryptoStr timeframe (some ex) =
          .ok (lowerStr (removeFirstSlash symbol) ++ usStr ++ lowerStr timeframe
                ++ usStr ++ lowerStr ex ++ cryptoSuffix)) ∧
    (∀ symbol assetType timeframe exchange,
        getTableName (lowerStr symbol) assetType timeframe exchange =
          getTableName symbol assetType timeframe exchange) := by
  refine ⟨fun s tf ex => rfl, fun s tf ex => rfl, fun s a tf ex => ?_⟩
  by_cases h1 : a = tradfiStr
  · subst h1
    simp [getTableName, lowerStr_idem]
  · by_cases h2 : a = cryptoStr
    · subst h2
      cases ex <;>
        simp [getTableName, h1, removeFirstSlash_lowerStr, lowerStr_idem]
    · simp [getTableName, h1, h2]

/-- C10: `getTableName` called with asset type `crypto` and a `null` or
`undefined` exchange does not return a name but throws (the `TypeError` from
`exchange.toLowerCase()`), and called with any asset type other than
`tradfi` or `crypto` it throws the `Invalid asset type` error. -/
theorem getTableName_error_cases :
    (∀ symbol timeframe,
        getTableName symbol cryptoStr timeframe none =
          .error JsError.typeErrorNullExchange) ∧
    (∀ symbol assetType timeframe exchange,
        assetType ≠ tradfiStr → assetType ≠ cryptoStr →
        getTableName symbol assetType timeframe exchange =
          .error JsError.invalidAssetType) := by
  constructor
  · intro s tf
    rfl
  · intro s a tf ex h1 h2
    simp [getTableName, h1, h2]

/-- Witness for the error cases of `getTableName`: the concrete asset type
`stocks` is neither `tradfi` nor `crypto` and triggers the
`Invalid asset type` throw; a crypto call without exchange throws the
`TypeError`. -/
theorem getTableName_error_cases_witness :
    getTableName [] cryptoStr [] none = .error JsError.typeErrorNullExchange ∧
    getTableName [] (encChars (['s', 't', 'o', 'c', 'k', 's'])) [] none =
      .error JsError.invalidAssetType :=
  ⟨getTableName_error_cases.1 [] [],
   getTableName_error_cases.2 [] (encChars (['s', 't', 'o', 'c', 'k', 's'])) []
     none (by decide) (by decide)⟩

/-! ## Batch upserter (`SymbolDatabaseManager.insertBatch`) -/

/-- One parsed bar record as built by the `importCSVFile` data handler.
`timestamp` is `none` for a JavaScript Invalid Date; price fields are `none`
for `parseFloat` results that are `NaN`; `volume` is `none` for the SQL
`NULL` stored when the CSV `volume` field is falsy. -/
structure BarRecord where
  timestamp : Option Int
  openPrice : Option Rat
  highPrice : Option Rat
  lowPrice : Option Rat
  closePrice : Option Rat
  volume : Option Rat
  day_of_week : JStr
  deriving Repr, DecidableEq

/-- One stored row of a per-symbol OHLCV table: the record's columns plus
the `timeframe` tag written by `insertBatch`. -/
structure TableRow where
  timestamp : Option Int
  openPrice : Option Rat
  highPrice : Option Rat
  lowPrice : Option Rat
  closePrice : Option Rat
  volume : Option Rat
  day_of_week : JStr
  timeframe : JStr
  deriving Repr, DecidableEq

/-- A per-symbol OHLCV table: rows in insertion order. -/
abbrev Table := List TableRow

/-- The row written for a record by the `INSERT ... ON CONFLICT (timestamp)
DO UPDATE` statement: all non-key columns come from the record plus the
`timeframe` parameter. -/
def mkRow (r : BarRecord) (tf : JStr) : TableRow :=
  ⟨r.timestamp, r.openPrice, r.highPrice, r.lowPrice, r.closePrice,
   r.volume, r.day_of_week, tf⟩

/-- The primary-key column of a table, in row order. -/
def tableKeys (tbl : Table) : List (Option Int) :=
  tbl.map TableRow.timestamp

/-- One `INSERT INTO t ... ON CONFLICT (timestamp) DO UPDATE SET ...
RETURNING (xmax = 0) AS inserted` statement: on primary-key conflict every
non-key column is overwritten with the new values; the returned `Bool` is
the `inserted` flag (`true` for a brand new row, `false` for an update). -/
def upsertRow (tf : JStr) (r : BarRecord) (tbl : Table) : Table × Bool :=
  if r.timestamp ∈ tableKeys tbl then
    (tbl.map fun row =>
      if row.timestamp = r.timestamp then mkRow r tf else row, false)
  else
    (tbl ++ [mkRow r tf], true)

/-- The body of the `insertBatch` transaction: run the upsert statement for
each record of the batch against the working snapshot, counting inserted
and updated rows.  `oracle r = some e` injects a database failure of the
statement for record `r` (the environment aborting the transaction). -/
def insertTxn {ε : Type} (oracle : BarRecord → Option ε) (tf : JStr) :
    List BarRecord → Table → Except ε (Table × Nat × Nat)
  | [], work => .ok (work, 0, 0)
  | r :: rs, work =>
    match oracle r with
    | some e => .error e
    | none =>
      let step := upsertRow tf r work
      match insertTxn oracle tf rs step.1 with
      | .error e => .error e
      | .ok (t, ins, upd) =>
        if step.2 then .ok (t, ins + 1, upd) else .ok (t, ins, upd + 1)

/-- `SymbolDatabaseManager.insertBatch(batch, tableName, timeframe)`:
`BEGIN`; per-record upserts; `COMMIT` on success (publishing the working
snapshot and returning `{inserted, updated}`); on any error `ROLLBACK`
(keeping the table as it was before the batch) and re-raise the error. -/
def insertBatch {ε : Type} (oracle : BarRecord → Option ε) (tf : JStr)
    (batch : List BarRecord) (tbl : Table) : Table × Except ε (Nat × Nat) :=
  match insertTxn oracle tf batch tbl with
  | .ok (work, ins, upd) => (work, .ok (ins, upd))
  | .error e => (tbl, .error e)

/-- C2: if the transaction for a batch fails at any point, the whole batch
is rolled back — the target table is left exactly as it was before the
batch started — and the error is re-raised to the caller (the second
component of the result is exactly `.error e`). -/
theorem insertBatch_rollback_on_failure {ε : Type}
    (oracle : BarRecord → Option ε) (tf : JStr) (batch : List BarRecord)
    (tbl : Table) (e : ε)
    (hfail : (insertBatch oracle tf batch tbl).2 = .error e) :
    (insertBatch oracle tf batch tbl).1 = tbl := by
  unfold insertBatch at hfail ⊢
  cases h : insertTxn oracle tf batch tbl with
  | ok v => simp [h] at hfail
  | error e' => simp [h]

/-- Witness for the rollback theorem: a one-record batch whose statement
fails leaves the concrete one-row table unchanged. -/
theorem insertBatch_rollback_on_failure_witness :
    (insertBatch (fun _ => some (0 : Nat)) []
        [⟨some 1, none, none, none, none, none, []⟩]
        [⟨some 0, none, none, none, none, none, [], []⟩]).2 = .error 0 ∧
    (insertBatch (fun _ => some (0 : Nat)) []
        [⟨some 1, none, none, none, none, none, []⟩]
        [⟨some 0, none, none, none, none, none, [], []⟩]).1 =
      [⟨some 0, none, none, none, none, none, [], []⟩] :=
  ⟨by rfl,
   insertBatch_rollback_on_failure (fun _ => some (0 : Nat)) []
     [⟨some 1, none, none, none, none, none, []⟩]
     [⟨some 0, none, none, none, none, none, [], []⟩] 0 (by rfl)⟩

theorem insertTxn_counts {ε : Type} (oracle : BarRecord → Option ε)
    (tf : JStr) (rs : List BarRecord) (work t : Table) (ins upd : Nat)
    (h : insertTxn oracle tf rs work = .ok (t, ins, upd)) :
    ins + upd = rs.length := by
  induction rs generalizing work t ins upd with
  | nil =>
      simp [insertTxn] at h
      obtain ⟨-, h2, h3⟩ := h
      simp [List.length_nil]
  | cons r rs ih =>
      unfold insertTxn at h
      cases horacle : oracle r with
      | some e => simp [horacle] at h
      | none =>
        simp only [horacle] at h
        cases htxn : insertTxn oracle tf rs (upsertRow tf r work).1 with
        | error e => simp [htxn] at h
        | ok v =>
          obtain ⟨t', ins', upd'⟩ := v
          have hcount := ih (upsertRow tf r work).1 t' ins' upd' htxn
          simp only [htxn] at h
          by_cases hstep : (upsertRow tf r work).2 = true
          · simp [hstep] at h
            obtain ⟨-, h2, h3⟩ := h
            simp [List.length_cons]
            omega
          · simp [hstep] at h
            obtain ⟨-, h2, h3⟩ := h
            simp [List.length_cons]
            omega

/-- C9: whenever `insertBatch` commits successfully, the counts it returns
satisfy `inserted + updated = batch.length`: every record of the batch is
classified as exactly one of newly inserted or overwritten. -/
theorem insertBatch_counts_partition {ε : Type}
    (oracle : BarRecord → Option ε) (tf : JStr) (batch : List BarRecord)
    (tbl : Table) (ins upd : Nat)
    (hok : (insertBatch oracle tf batch tbl).2 = .ok (ins, upd)) :
    ins + upd = batch.length := by
  unfold insertBatch at hok
  cases h : insertTxn oracle tf batch tbl with
  | ok v =>
      obtain ⟨t, i, u⟩ := v
      simp [h] at hok
      obtain ⟨rfl, rfl⟩ := hok
      exact insertTxn_counts oracle tf batch tbl t i u h
  | error e => simp [h] at hok

/-- Witness for the counting theorem: a concrete two-record batch (one
fresh insert, one conflict update) commits with `inserted + updated = 2`. -/
theorem insertBatch_counts_partition_witness :
    (insertBatch (fun _ => (none : Option Nat)) []
        [⟨some 1, none, none, none, none, none, []⟩,
         ⟨some 0, none, none, none, none, none, []⟩]
        [⟨some 0, none, none, none, none, none, [], []⟩]).2 = .ok (1, 1) ∧
    (1 : Nat) + 1 = 2 :=
  ⟨by rfl,
   insertBatch_counts_partition (fun _ => (none : Option Nat)) []
     [⟨some 1, none, none, none, none, none, []⟩,
      ⟨some 0, none, none, none, none, none, []⟩]
     [⟨some 0, none, none, none, none, none, [], []⟩] 1 1 (by rfl)⟩

/-! ## Streaming ingest pipeline (`SymbolDatabaseManager.insertRecordsBatched`) -/

/-- The import configuration constants read from
`src/config/database_import.js` (`config.INSERT_BATCH_SIZE`,
`config.CONTINUE_ON_BATCH_FAILURE`, `config.MAX_FAILED_BATCHES`,
`config.VALIDATE_NUMBERS`, `config.SKIP_MALFORMED_RECORDS`,
`config.SKIP_INVALID_TIMESTAMPS`, `config.MAX_PRICE_VALUE`). -/
structure ImportConfig where
  insertBatchSize : Nat
  continueOnBatchFailure : Bool
  maxFailedBatches : Nat
  validateNumbers : Bool
  skipMalformedRecords : Bool
  skipInvalidTimestamps : Bool
  maxPriceValue : Rat
  deriving Repr, DecidableEq

/-- The batches cut by the loop
`for (let i = 0; i < records.length; i += BATCH_SIZE)`,
each batch being `records.slice(i, i + BATCH_SIZE)`.  (The JavaScript loop
diverges for `BATCH_SIZE = 0`; this total version then cuts singleton
batches, and every theorem about it quantifies over arbitrary sizes or
assumes a positive one.) -/
def chunksOf (bs : Nat) : List α → List (List α)
  | [] => []
  | x :: xs => (x :: xs.take (bs - 1)) :: chunksOf bs (xs.drop (bs - 1))
  termination_by l => l.length
  decreasing_by
    simp only [List.length_drop, List.length_cons]
    omega

/-- The aggregate result of `insertRecordsBatched`:
`{inserted, updated, failedBatches}` (the `errorMessages` array is log
output and is not modelled). -/
structure BatchedResult where
  inserted : Nat
  updated : Nat
  failedBatches : Nat
  deriving Repr, DecidableEq

/-- The batch loop of `insertRecordsBatched`: each batch goes through
`insertBatch`; on success the counts accumulate; on a batch failure, if
`CONTINUE_ON_BATCH_FAILURE` the failure is recorded and — once
`failedBatches >= MAX_FAILED_BATCHES` — the loop breaks, returning the
totals so far; otherwise the error is re-thrown. -/
def runBatches {ε : Type} (cfg : ImportConfig) (oracle : BarRecord → Option ε)
    (tf : JStr) :
    List (List BarRecord) → Table → Nat → Nat → Nat →
      Table × Except ε BatchedResult
  | [], tbl, ins, upd, fails => (tbl, .ok ⟨ins, upd, fails⟩)
  | b :: bs, tbl, ins, upd, fails =>
    match insertBatch oracle tf b tbl with
    | (tbl', .ok (i, u)) =>
        runBatches cfg oracle tf bs tbl' (ins + i) (upd + u) fails
    | (tbl', .error e) =>
        if cfg.continueOnBatchFailure then
          if cfg.maxFailedBatches ≤ fails + 1 then
            (tbl', .ok ⟨ins, upd, fails + 1⟩)
          else
            runBatches cfg oracle tf bs tbl' ins upd (fails + 1)
        else
          (tbl', .error e)

/-- `SymbolDatabaseManager.insertRecordsBatched(records, ...)`: slice the
records into `INSERT_BATCH_SIZE`-sized batches and run the batch loop with
zeroed totals. -/
def insertRecordsBatched {ε : Type} (cfg : ImportConfig)
    (oracle : BarRecord → Option ε) (records : List BarRecord) (tf : JStr)
    (tbl : Table) : Table × Except ε BatchedResult :=
  runBatches cfg oracle tf (chunksOf cfg.insertBatchSize records) tbl 0 0 0

theorem chunksOf_ne_nil {bs : Nat} {l : List α} {c : List α}
    (hc : c ∈ chunksOf bs l) : c ≠ [] := by
  induction l using chunksOf.induct bs with
  | case1 => simp [chunksOf] at hc
  | case2 x xs ih =>
      rw [chunksOf] at hc
      rcases List.mem_cons.mp hc with h | h
      · subst h
        simp
      · exact ih h

theorem insertBatch_fails_of_always_failing {ε : Type}
    {oracle : BarRecord → Option ε} (hor : ∀ r, (oracle r).isSome)
    (tf : JStr) {b : List BarRecord} (hb : b ≠ []) (tbl : Table) :
    ∃ e, insertBatch oracle tf b tbl = (tbl, .error e) := by
  obtain ⟨r, rs, rfl⟩ := List.exists_cons_of_ne_nil hb
  obtain ⟨e, he⟩ := Option.isSome_iff_exists.mp (hor r)
  exact ⟨e, by simp [insertBatch, insertTxn, he]⟩

/-- C4: with `CONTINUE_ON_BATCH_FAILURE = true`, `MAX_FAILED_BATCHES = 3`
and every batch forced to fail, the batched insert stops after exactly 3
failed batches and returns `failedBatches = 3` and `inserted = 0` (and, the
failed batches having rolled back, the table is untouched). -/
theorem insertRecordsBatched_failure_ceiling {ε : Type}
    (cfg : ImportConfig) (oracle : BarRecord → Option ε)
    (records : List BarRecord) (tf : JStr) (tbl : Table)
    (hcont : cfg.continueOnBatchFailure = true)
    (hmax : cfg.maxFailedBatches = 3)
    (hor : ∀ r, (oracle r).isSome)
    (hlen : 3 ≤ (chunksOf cfg.insertBatchSize records).length) :
    insertRecordsBatched cfg oracle records tf tbl =
      (tbl, .ok ⟨0, 0, 3⟩) := by
  unfold insertRecordsBatched
  generalize hch : chunksOf cfg.insertBatchSize records = chunks at hlen
  have hne : ∀ c ∈ chunks, c ≠ [] := by
    intro c hc
    exact chunksOf_ne_nil (hch ▸ hc)
  match chunks, hlen with
  | b1 :: b2 :: b3 :: rest, _ =>
    obtain ⟨e1, he1⟩ :=
      insertBatch_fails_of_always_failing hor tf (hne b1 (by simp)) tbl
    obtain ⟨e2, he2⟩ :=
      insertBatch_fails_of_always_failing hor tf (hne b2 (by simp)) tbl
    obtain ⟨e3, he3⟩ :=
      insertBatch_fails_of_always_failing hor tf (hne b3 (by simp)) tbl
    simp [runBatches, he1, he2, he3, hcont, hmax]

/-- Witness for the failure ceiling: four singleton batches (batch size 1,
four records) with an always-failing oracle stop at exactly 3 failed
batches with nothing inserted. -/
theorem insertRecordsBatched_failure_ceiling_witness :
    insertRecordsBatched ⟨1, true, 3, true, true, true, 0⟩
        (fun _ => some (0 : Nat))
        [⟨some 0, none, none, none, none, none, []⟩,
         ⟨some 1, none, none, none, none, none, []⟩,
         ⟨some 2, none, none, none, none, none, []⟩,
         ⟨some 3, none, none, none, none, none, []⟩] [] [] =
      ([], .ok ⟨0, 0, 3⟩) :=
  insertRecordsBatched_failure_ceiling ⟨1, true, 3, true, true, true, 0⟩
    (fun _ => some (0 : Nat))
    [⟨some 0, none, none, none, none, none, []⟩,
     ⟨some 1, none, none, none, none, none, []⟩,
     ⟨some 2, none, none, none, none, none, []⟩,
     ⟨some 3, none, none, none, none, none, []⟩] [] []
    (by rfl) (by rfl) (fun r => by rfl) (by simp [chunksOf])

/-! ## Idempotence of re-ingesting the same records -/

theorem tableKeys_map_replace (tf : JStr) (r : BarRecord) (tbl : Table) :
    tableKeys (tbl.map fun row =>
        if row.timestamp = r.timestamp then mkRow r tf else row) =
      tableKeys tbl := by
  unfold tableKeys
  rw [List.map_map]
  apply List.map_congr_left
  intro a _
  by_cases h : a.timestamp = r.timestamp <;> simp [h, mkRow]

theorem insertTxn_fresh {ε : Type} {oracle : BarRecord → Option ε}
    (hnf : ∀ r, oracle r = none) (tf : JStr) (rs : List BarRecord) :
    ∀ tbl : Table, (∀ r ∈ rs, r.timestamp ∉ tableKeys tbl) →
      (rs.map BarRecord.timestamp).Nodup →
      ∃ t, insertTxn oracle tf rs tbl = .ok (t, rs.length, 0) ∧
        tableKeys t = tableKeys tbl ++ rs.map BarRecord.timestamp := by
  induction rs with
  | nil =>
      intro tbl _ _
      exact ⟨tbl, by simp [insertTxn], by simp⟩
  | cons r rs ih =>
      intro tbl hmem hnd
      have hnotin : r.timestamp ∉ tableKeys tbl := hmem r (by simp)
      have hup : upsertRow tf r tbl = (tbl ++ [mkRow r tf], true) := by
        simp [upsertRow, hnotin]
      have hkey1 : tableKeys (tbl ++ [mkRow r tf]) =
          tableKeys tbl ++ [r.timestamp] := by
        simp [tableKeys, mkRow]
      rw [List.map_cons] at hnd
      obtain ⟨hhead, hnd'⟩ := List.nodup_cons.mp hnd
      have hmem' : ∀ r' ∈ rs, r'.timestamp ∉ tableKeys (tbl ++ [mkRow r tf]) := by
        intro r' hr'
        rw [hkey1]
        simp only [List.mem_append, List.mem_singleton]
        rintro (hc | hc)
        · exact hmem r' (List.mem_cons_of_mem r hr') hc
        · exact hhead (hc ▸ List.mem_map_of_mem BarRecord.timestamp hr')
      obtain ⟨t, htxn, hkeys⟩ := ih (tbl ++ [mkRow r tf]) hmem' hnd'
      refine ⟨t, ?_, ?_⟩
      · simp only [insertTxn, hnf r]
        rw [hup]
        simp only [htxn]
        simp [List.length_cons]
      · rw [hkeys, hkey1, List.append_assoc]
        simp

theorem insertTxn_all_present {ε : Type} {oracle : BarRecord → Option ε}
    (hnf : ∀ r, oracle r = none) (tf : JStr) (rs : List BarRecord) :
    ∀ tbl : Table, (∀ r ∈ rs, r.timestamp ∈ tableKeys tbl) →
      ∃ t, insertTxn oracle tf rs tbl = .ok (t, 0, rs.length) ∧
        tableKeys t = tableKeys tbl := by
  induction rs with
  | nil =>
      intro tbl _
      exact ⟨tbl, by simp [insertTxn], rfl⟩
  | cons r rs ih =>
      intro tbl hmem
      have hin : r.timestamp ∈ tableKeys tbl := hmem r (by simp)
      have hup : upsertRow tf r tbl =
          (tbl.map fun row =>
            if row.timestamp = r.timestamp then mkRow r tf else row, false) := by
        simp [upsertRow, hin]
      have hkey1 := tableKeys_map_replace tf r tbl
      have hmem' : ∀ r' ∈ rs, r'.timestamp ∈ tableKeys
          (tbl.map fun row =>
            if row.timestamp = r.timestamp then mkRow r tf else row) := by
        intro r' hr'
        rw [hkey1]
        exact hmem r' (List.mem_cons_of_mem r hr')
      obtain ⟨t, htxn, hkeys⟩ := ih _ hmem'
      refine ⟨t, ?_, ?_⟩
      · simp only [insertTxn, hnf r]
        rw [hup]
        simp only [htxn]
        simp [List.length_cons]
      · rw [hkeys, hkey1]

theorem chunksOf_join (bs : Nat) (l : List α) : (chunksOf bs l).flatten = l := by
  induction l using chunksOf.induct bs with
  | case1 => simp [chunksOf]
  | case2 x xs ih =>
      rw [chunksOf]
      simp [ih]

theorem runBatches_fresh {ε : Type} {oracle : BarRecord → Option ε}
    (hnf : ∀ r, oracle r = none) (cfg : ImportConfig) (tf : JStr)
    (chunks : List (List BarRecord)) :
    ∀ (tbl : Table) (ins upd fails : Nat),
      (∀ r ∈ chunks.flatten, r.timestamp ∉ tableKeys tbl) →
      (chunks.flatten.map BarRecord.timestamp).Nodup →
      ∃ t, runBatches cfg oracle tf chunks tbl ins upd fails =
          (t, .ok ⟨ins + chunks.flatten.length, upd, fails⟩) ∧
        tableKeys t = tableKeys tbl ++ chunks.flatten.map BarRecord.timestamp := by
  induction chunks with
  | nil =>
      intro tbl ins upd fails _ _
      exact ⟨tbl, by simp [runBatches], by simp⟩
  | cons b bs ih =>
      intro tbl ins upd fails hmem hnd
      simp only [List.flatten_cons, List.map_append, List.mem_append] at hmem hnd
      have hmb : ∀ r ∈ b, r.timestamp ∉ tableKeys tbl :=
        fun r hr => hmem r (Or.inl hr)
      obtain ⟨hndb, hndj, hdisj⟩ := List.nodup_append.mp hnd
      obtain ⟨t1, htxn, hk1⟩ := insertTxn_fresh hnf tf b tbl hmb hndb
      have hbatch : insertBatch oracle tf b tbl = (t1, .ok (b.length, 0)) := by
        simp [insertBatch, htxn]
      have hmem2 : ∀ r ∈ bs.flatten, r.timestamp ∉ tableKeys t1 := by
        intro r hr
        rw [hk1]
        simp only [List.mem_append]
        rintro (hc | hc)
        · exact hmem r (Or.inr hr) hc
        · exact hdisj hc (List.mem_map_of_mem BarRecord.timestamp hr)
      obtain ⟨t2, hrun, hk2⟩ :=
        ih t1 (ins + b.length) (upd + 0) fails hmem2 hndj
      refine ⟨t2, ?_, ?_⟩
      · simp only [runBatches, hbatch, hrun]
        simp [List.length_append, Nat.add_assoc]
      · rw [hk2, hk1, List.append_assoc]
        simp [List.map_append]

theorem runBatches_all_present {ε : Type} {oracle : BarRecord → Option ε}
    (hnf : ∀ r, oracle r = none) (cfg : ImportConfig) (tf : JStr)
    (chunks : List (List BarRecord)) :
    ∀ (tbl : Table) (ins upd fails : Nat),
      (∀ r ∈ chunks.flatten, r.timestamp ∈ tableKeys tbl) →
      ∃ t, runBatches cfg oracle tf chunks tbl ins upd fails =
          (t, .ok ⟨ins, upd + chunks.flatten.length, fails⟩) ∧
        tableKeys t = tableKeys tbl := by
  induction chunks with
  | nil =>
      intro tbl ins upd fails _
      exact ⟨tbl, by simp [runBatches], rfl⟩
  | cons b bs ih =>
      intro tbl ins upd fails hmem
      simp only [List.flatten_cons, List.mem_append] at hmem
      have hmb : ∀ r ∈ b, r.timestamp ∈ tableKeys tbl :=
        fun r hr => hmem r (Or.inl hr)
      obtain ⟨t1, htxn, hk1⟩ := insertTxn_all_present hnf tf b tbl hmb
      have hbatch : insertBatch oracle tf b tbl = (t1, .ok (0, b.length)) := by
        simp [insertBatch, htxn]
      have hmem2 : ∀ r ∈ bs.flatten, r.timestamp ∈ tableKeys t1 := by
        intro r hr
        rw [hk1]
        exact hmem r (Or.inr hr)
      obtain ⟨t2, hrun, hk2⟩ := ih t1 (ins + 0) (upd + b.length) fails hmem2
      refine ⟨t2, ?_, ?_⟩
      · simp only [runBatches, hbatch, hrun]
        simp [List.length_append, Nat.add_assoc]
      · rw [hk2, hk1]

/-- C1: for every sequence of records with pairwise-distinct timestamps
ingested (with no database failures) into an initially empty OHLCV table,
the first ingest returns `inserted = N, updated = 0`, a second ingest of
the identical sequence returns `inserted = 0, updated = N`, and the table
holds exactly `N` rows after both runs. -/
theorem ingest_idempotent (cfg : ImportConfig) (tf : JStr)
    (records : List BarRecord)
    (hdist : (records.map BarRecord.timestamp).Nodup) :
    (insertRecordsBatched cfg (fun _ => (none : Option Unit)) records tf
        []).2 = .ok ⟨records.length, 0, 0⟩ ∧
    (insertRecordsBatched cfg (fun _ => (none : Option Unit)) records tf
        (insertRecordsBatched cfg (fun _ => (none : Option Unit)) records tf
          []).1).2 = .ok ⟨0, records.length, 0⟩ ∧
    (insertRecordsBatched cfg (fun _ => (none : Option Unit)) records tf
        (insertRecordsBatched cfg (fun _ => (none : Option Unit)) records tf
          []).1).1.length = records.length := by
  have hnf : ∀ r : BarRecord, (fun _ => (none : Option Unit)) r = none :=
    fun _ => rfl
  have hjoin : (chunksOf cfg.insertBatchSize records).flatten = records :=
    chunksOf_join _ _
  obtain ⟨t1, hrun1, hk1⟩ :=
    runBatches_fresh hnf cfg tf (chunksOf cfg.insertBatchSize records)
      [] 0 0 0 (by simp [tableKeys]) (by rwa [hjoin])
  rw [hjoin] at hrun1
  have hk1' : tableKeys t1 = records.map BarRecord.timestamp := by
    simpa [tableKeys, hjoin] using hk1
  have hfirst : insertRecordsBatched cfg (fun _ => (none : Option Unit))
      records tf [] = (t1, .ok ⟨records.length, 0, 0⟩) := by
    unfold insertRecordsBatched
    simpa using hrun1
  obtain ⟨t2, hrun2, hk2⟩ :=
    runBatches_all_present hnf cfg tf (chunksOf cfg.insertBatchSize records)
      t1 0 0 0
      (by
        rw [hjoin, hk1']
        intro r hr
        exact List.mem_map_of_mem BarRecord.timestamp hr)
  rw [hjoin] at hrun2
  have hsecond : insertRecordsBatched cfg (fun _ => (none : Option Unit))
      records tf t1 = (t2, .ok ⟨0, records.length, 0⟩) := by
    unfold insertRecordsBatched
    simpa using hrun2
  refine ⟨by rw [hfirst], ?_, ?_⟩
  · rw [hfirst]
    simp only
    rw [hsecond]
  · rw [hfirst]
    simp only
    rw [hsecond]
    simp only
    have hlen : t2.length = (tableKeys t2).length := by
      simp [tableKeys]
    rw [hlen, hk2, hk1']
    simp

/-- Witness for idempotence: two records with distinct timestamps, batch
size 1, ingested twice into an empty table. -/
theorem ingest_idempotent_witness :
    (insertRecordsBatched ⟨1, true, 3, true, true, true, 0⟩
        (fun _ => (none : Option Unit))
        [⟨some 0, none, none, none, none, none, []⟩,
         ⟨some 1, none, none, none, none, none, []⟩] [] []).2 =
      .ok ⟨2, 0, 0⟩ ∧
    (insertRecordsBatched ⟨1, true, 3, true, true, true, 0⟩
        (fun _ => (none : Option Unit))
        [⟨some 0, none, none, none, none, none, []⟩,
         ⟨some 1, none, none, none, none, none, []⟩] []
        (insertRecordsBatched ⟨1, true, 3, true, true, true, 0⟩
          (fun _ => (none : Option Unit))
          [⟨some 0, none, none, none, none, none, []⟩,
           ⟨some 1, none, none, none, none, none, []⟩] [] []).1).2 =
      .ok ⟨0, 2, 0⟩ ∧
    (insertRecordsBatched ⟨1, true, 3, true, true, true, 0⟩
        (fun _ => (none : Option Unit))
        [⟨some 0, none, none, none, none, none, []⟩,
         ⟨some 1, none, none, none, none, none, []⟩] []
        (insertRecordsBatched ⟨1, true, 3, true, true, true, 0⟩
          (fun _ => (none : Option Unit))
          [⟨some 0, none, none, none, none, none, []⟩,
           ⟨some 1, none, none, none, none, none, []⟩] [] []).1).1.length =
      2 :=
  ingest_idempotent ⟨1, true, 3, true, true, true, 0⟩ []
    [⟨some 0, none, none, none, none, none, []⟩,
     ⟨some 1, none, none, none, none, none, []⟩] (by decide)

/-! ## Record validator and the `importCSVFile` data handler -/

/-- The string `Sunday`. -/
def sundayStr : JStr := encChars (['S', 'u', 'n', 'd', 'a', 'y'])

/-- The string `Monday`. -/
def mondayStr : JStr := encChars (['M', 'o', 'n', 'd', 'a', 'y'])

/-- The string `Tuesday`. -/
def tuesdayStr : JStr := encChars (['T', 'u', 'e', 's', 'd', 'a', 'y'])

/-- The string `Wednesday`. -/
def wednesdayStr : JStr := encChars (['W', 'e', 'd', 'n', 'e', 's', 'd', 'a', 'y'])

/-- The string `Thursday`. -/
def thursdayStr : JStr := encChars (['T', 'h', 'u', 'r', 's', 'd', 'a', 'y'])

/-- The string `Friday`. -/
def fridayStr : JStr := encChars (['F', 'r', 'i', 'd', 'a', 'y'])

/-- The string `Saturday`. -/
def saturdayStr : JStr := encChars (['S', 'a', 't', 'u', 'r', 'd', 'a', 'y'])

/-- The `days` array of `SymbolDatabaseManager.getDayOfWeek`:
`['Sunday', 'Monday', 'Tuesday', 'Wednesday', 'Thursday', 'Friday',
'Saturday']`, indexed by `Date.prototype.getDay()`. -/
def dayNames : List JStr :=
  [sundayStr, mondayStr, tuesdayStr, wednesdayStr, thursdayStr, fridayStr,
   saturdayStr]

/-- Milliseconds per day. -/
def msPerDay : Int := 86400000

/-- `Date.prototype.getDay()` for a time value of `ts` milliseconds since
the epoch (UTC): `0` = Sunday, ..., `6` = Saturday; 1970-01-01 was a
Thursday (`4`). -/
def jsGetDay (ts : Int) : Nat :=
  ((ts.ediv msPerDay + 4).emod 7).toNat

/-- `SymbolDatabaseManager.getDayOfWeek(timestamp)`:
`days[timestamp.getDay()]`. -/
def getDayOfWeek (ts : Int) : JStr :=
  dayNames.getD (jsGetDay ts) []

/-- One raw CSV row after field parsing: `timestamp` is
`new Date(row.timestamp)` (`none` = Invalid Date), the price fields are
`parseFloat` results (`none` = `NaN`), `volume` is `none` when the CSV
field is falsy (absent or empty, stored as SQL `NULL`). -/
structure RawRow where
  timestamp : Option Int
  openPrice : Option Rat
  highPrice : Option Rat
  lowPrice : Option Rat
  closePrice : Option Rat
  volume : Option Rat
  deriving Repr, DecidableEq

/-- `isNaN(p) || p < 0` for one parsed price. -/
def priceBad (p : Option Rat) : Bool :=
  match p with
  | none => true
  | some v => decide (v < 0)

/-- `p > config.MAX_PRICE_VALUE` for one parsed price (`NaN > max` is
false). -/
def priceTooBig (maxPrice : Rat) (p : Option Rat) : Bool :=
  match p with
  | none => false
  | some v => decide (maxPrice < v)

/-- `SymbolDatabaseManager.isValidRecord(record)`: the four prices must
parse, be non-negative and not exceed `MAX_PRICE_VALUE`; when
`SKIP_INVALID_TIMESTAMPS` is set the timestamp must parse to a valid
instant. -/
def isValidRecord (cfg : ImportConfig) (row : RawRow) : Bool :=
  let prices := [row.openPrice, row.highPrice, row.lowPrice, row.closePrice]
  if prices.any priceBad then false
  else if prices.any (priceTooBig cfg.maxPriceValue) then false
  else if cfg.skipInvalidTimestamps && row.timestamp.isNone then false
  else true

/-- The record object pushed by the `importCSVFile` data handler:
`day_of_week` is derived from the parsed timestamp (`days[NaN]` is
`undefined` for an Invalid Date, modelled as the empty string). -/
def toBarRecord (row : RawRow) : BarRecord :=
  ⟨row.timestamp, row.openPrice, row.highPrice, row.lowPrice,
   row.closePrice, row.volume,
   match row.timestamp with
   | some ts => getDayOfWeek ts
   | none => []⟩

/-- The `data` handler of `SymbolDatabaseManager.importCSVFile`:

```js
if (config.VALIDATE_NUMBERS && !this.isValidRecord(row)) {
  if (config.SKIP_MALFORMED_RECORDS) {
    return; // Skip this record
  }
}
... records.push(record);
```

Note that when validation fails and `SKIP_MALFORMED_RECORDS` is `false`
the handler falls through and pushes the invalid record anyway. -/
def handleDataRow (cfg : ImportConfig) (records : List BarRecord)
    (row : RawRow) : List BarRecord :=
  if cfg.validateNumbers && !(isValidRecord cfg row) then
    if cfg.skipMalformedRecords then records
    else records ++ [toBarRecord row]
  else records ++ [toBarRecord row]

/-- The `importCSVFile` pipeline over already-parsed CSV rows: run the data
handler over every row, then `insertRecordsBatched` on the accumulated
records. -/
def importParsedRows {ε : Type} (cfg : ImportConfig)
    (oracle : BarRecord → Option ε) (rows : List RawRow) (tf : JStr)
    (tbl : Table) : Table × Except ε BatchedResult :=
  insertRecordsBatched cfg oracle (rows.foldl (handleDataRow cfg) []) tf tbl

/-- The production configuration of `src/config/database_import.js` with
the skip-invalid-records policy disabled
(`VALIDATE_NUMBERS = true`, `SKIP_MALFORMED_RECORDS = false`,
`INSERT_BATCH_SIZE = 5000`, `CONTINUE_ON_BATCH_FAILURE = true`,
`MAX_FAILED_BATCHES = 3`, `SKIP_INVALID_TIMESTAMPS = true`,
`MAX_PRICE_VALUE = 10000000`). -/
def strictImportCfg : ImportConfig :=
  ⟨5000, true, 3, true, false, true, 10000000⟩

/-- A CSV row with a negative open price and an otherwise valid content
(timestamp 1970-01-01T00:00:00Z). -/
def negativePriceRow : RawRow :=
  ⟨some 0, some (-1), some 1, some 1, some 1, none⟩

/-- C3 (evaluation at the failing input): with validation enabled and the
skip-invalid-records policy disabled, a run over a single invalid row
(negative open price) does NOT abort: the handler falls through, the
invalid record is pushed, the batch commits, and the run returns
`inserted = 1` with the invalid row stored in the table — contradicting
the claim that no rows at all are written. -/
theorem strict_mode_still_ingests_invalid_row :
    isValidRecord strictImportCfg negativePriceRow = false ∧
    importParsedRows strictImportCfg (fun _ => (none : Option Unit))
        [negativePriceRow] [] [] =
      ([⟨some 0, some (-1), some 1, some 1, some 1, none, thursdayStr, []⟩],
        .ok ⟨1, 0, 0⟩) := by
  constructor
  · decide
  · simp [importParsedRows, insertRecordsBatched, chunksOf, runBatches,
      insertBatch, insertTxn, upsertRow, tableKeys, handleDataRow,
      strictImportCfg, negativePriceRow, toBarRecord, isValidRecord,
      priceBad, mkRow, getDayOfWeek, jsGetDay, msPerDay, dayNames]
    decide

/-! ## Metadata catalog rescan (`refresh_symbol_metadata`) -/

/-- The `data_format` column: `'OHLCV'` when positive volume exists,
`'OHLC'` otherwise. -/
inductive DataFormat where
  | ohlc : DataFormat
  | ohlcv : DataFormat
  deriving Repr, DecidableEq

/-- The `day_of_week_distribution` JSONB object built by
`refresh_symbol_metadata`. -/
structure DayOfWeekDistribution where
  monday : Nat
  tuesday : Nat
  wednesday : Nat
  thursday : Nat
  friday : Nat
  saturday : Nat
  sunday : Nat
  deriving Repr, DecidableEq

/-- The statistics columns of one `symbol_metadata` catalog row that
`refresh_symbol_metadata` rewrites.  (The identity columns, the raw
timestamp extremes, `coverage_days` and the bookkeeping `NOW()` stamps are
not needed by any verified property and are left out of the model.) -/
structure CatalogEntry where
  total_records : Nat
  volume_available : Bool
  data_format : DataFormat
  day_of_week_distribution : DayOfWeekDistribution
  deriving Repr, DecidableEq

/-- `volume IS NOT NULL AND volume > 0` for one row. -/
def hasPositiveVolume (row : TableRow) : Bool :=
  match row.volume with
  | some v => decide (0 < v)
  | none => false

/-- `COUNT(CASE WHEN day_of_week = label THEN 1 END)` over a table. -/
def countDay (label : JStr) (rows : List TableRow) : Nat :=
  rows.countP fun row => decide (row.day_of_week = label)

/-- The SQL function `refresh_symbol_metadata(target_table_name)`: one
aggregate scan computing `COUNT(*)`,
`COUNT(CASE WHEN volume IS NOT NULL AND volume > 0 THEN 1 END) > 0` and
the seven weekday counts, written back into the catalog row of the
table. -/
def refreshSymbolMetadata (rows : List TableRow) (entry : CatalogEntry) :
    CatalogEntry :=
  let has_volume := rows.any hasPositiveVolume
  { entry with
    total_records := rows.length
    volume_available := has_volume
    data_format := if has_volume then .ohlcv else .ohlc
    day_of_week_distribution :=
      ⟨countDay mondayStr rows, countDay tuesdayStr rows,
       countDay wednesdayStr rows, countDay thursdayStr rows,
       countDay fridayStr rows, countDay saturdayStr rows,
       countDay sundayStr rows⟩ }

theorem hasPositiveVolume_iff (row : TableRow) :
    hasPositiveVolume row = true ↔ ∃ v : ℚ, row.volume = some v ∧ 0 < v := by
  cases h : row.volume <;> simp [hasPositiveVolume, h]

/-- C6: after a rescan of a table, the catalog entry's `volume_available`
flag is `true` if and only if at least one row of the table has a
non-null, strictly positive volume. -/
theorem volume_available_iff_positive_volume (rows : List TableRow)
    (entry : CatalogEntry) :
    (refreshSymbolMetadata rows entry).volume_available = true ↔
      ∃ row ∈ rows, ∃ v : ℚ, row.volume = some v ∧ 0 < v := by
  simp [refreshSymbolMetadata, List.any_eq_true, hasPositiveVolume_iff]

/-- The sum of the seven weekday counts of a distribution. -/
def dowSum (d : DayOfWeekDistribution) : Nat :=
  d.monday + d.tuesday + d.wednesday + d.thursday + d.friday + d.saturday +
    d.sunday

theorem countDay_total (rows : List TableRow)
    (h : ∀ row ∈ rows, row.day_of_week ∈ dayNames) :
    countDay mondayStr rows + countDay tuesdayStr rows +
      countDay wednesdayStr rows + countDay thursdayStr rows +
      countDay fridayStr rows + countDay saturdayStr rows +
      countDay sundayStr rows = rows.length := by
  induction rows with
  | nil => simp [countDay]
  | cons row rs ih =>
      have hd := h row (by simp)
      have ihs := ih fun r hr => h r (List.mem_cons_of_mem _ hr)
      simp only [dayNames, List.mem_cons, List.not_mem_nil, or_false] at hd
      simp only [countDay, List.countP_cons, List.length_cons] at ihs ⊢
      rcases hd with hcase | hcase | hcase | hcase | hcase | hcase | hcase <;>
        rw [hcase] <;> simp +decide <;> omega

/-- C8: every value `getDayOfWeek` can write into the `day_of_week` column
is one of the seven weekday labels, and for every table whose rows carry
such labels, after a rescan the seven counts of
`day_of_week_distribution` sum to `total_records`. -/
theorem dow_histogram_sums_to_total :
    (∀ ts : Int, getDayOfWeek ts ∈ dayNames) ∧
    ∀ (rows : List TableRow) (entry : CatalogEntry),
      (∀ row ∈ rows, row.day_of_week ∈ dayNames) →
      dowSum (refreshSymbolMetadata rows entry).day_of_week_distribution =
        (refreshSymbolMetadata rows entry).total_records := by
  constructor
  · intro ts
    have h0 : 0 ≤ (ts.ediv msPerDay + 4).emod 7 :=
      Int.emod_nonneg _ (by norm_num)
    have h7 : (ts.ediv msPerDay + 4).emod 7 < 7 :=
      Int.emod_lt_of_pos _ (by norm_num)
    unfold getDayOfWeek
    have hlt : jsGetDay ts < 7 := by
      unfold jsGetDay
      omega
    generalize jsGetDay ts = i at hlt
    interval_cases i <;> decide
  · intro rows entry h
    simpa [refreshSymbolMetadata, dowSum] using countDay_total rows h

/-- Witness for the histogram theorem: the label written for the epoch
instant (a Thursday) is a weekday label, and a concrete one-row table
rescan has `dowSum = total_records = 1`. -/
theorem dow_histogram_sums_to_total_witness :
    getDayOfWeek 0 ∈ dayNames ∧
    dowSum (refreshSymbolMetadata
        [⟨some 0, none, none, none, none, none, thursdayStr, []⟩]
        ⟨0, false, .ohlc, ⟨0, 0, 0, 0, 0, 0, 0⟩⟩).day_of_week_distribution =
      (refreshSymbolMetadata
        [⟨some 0, none, none, none, none, none, thursdayStr, []⟩]
        ⟨0, false, .ohlc, ⟨0, 0, 0, 0, 0, 0, 0⟩⟩).total_records :=
  ⟨dow_histogram_sums_to_total.1 0,
   dow_histogram_sums_to_total.2
     [⟨some 0, none, none, none, none, none, thursdayStr, []⟩]
     ⟨0, false, .ohlc, ⟨0, 0, 0, 0, 0, 0, 0⟩⟩
     (by intro row hr; simp at hr; subst hr; decide)⟩

/-! ## Update planner (`DatabaseMetadataManager.planIncrementalUpdate`) -/

/-- The part of a `symbol_metadata` catalog row the planner reads:
`new Date(metadata.can_update_from)` as milliseconds since the epoch. -/
structure PlannerMetadata where
  can_update_from : Int
  deriving Repr, DecidableEq

/-- The `updateType` field of an update plan. -/
inductive UpdateType where
  | full : UpdateType
  | none : UpdateType
  | incremental : UpdateType
  deriving Repr, DecidableEq

/-- The `reason` field of an update plan. -/
inductive PlanReason where
  | no_metadata : PlanReason
  | up_to_date : PlanReason
  | gap_detected : PlanReason
  deriving Repr, DecidableEq

/-- The plan object returned by `planIncrementalUpdate` (the `symbol`
pass-through field is omitted). -/
structure UpdatePlan where
  updateType : UpdateType
  reason : PlanReason
  fromDate : Option Int
  toDate : Option Int
  gapDays : Option Int
  deriving Repr, DecidableEq

/-- `DatabaseMetadataManager.getEndOfPreviousDay()`: take `now`, step back
one calendar day keeping the time, then `setHours(23, 59, 59, 999)` — the
last millisecond of yesterday (UTC). -/
def getEndOfPreviousDay (now : Int) : Int :=
  msPerDay * ((now - msPerDay).ediv msPerDay) + (msPerDay - 1)

/-- `Math.ceil(a / b)` for integer `a` and positive integer `b`. -/
def jsMathCeilDiv (a b : Int) : Int := -((-a).ediv b)

/-- `DatabaseMetadataManager.planIncrementalUpdate(symbol, ...)`:

```js
if (!metadata) return { updateType: 'full', reason: 'no_metadata',
                        fromDate: null, toDate: this.getEndOfPreviousDay() };
const lastUpdate = new Date(metadata.can_update_from);
const endDate = this.getEndOfPreviousDay();
if (lastUpdate >= endDate) return { updateType: 'none', reason: 'up_to_date',
                                    fromDate: null, toDate: null };
return { updateType: 'incremental', reason: 'gap_detected',
         fromDate: lastUpdate, toDate: endDate,
         gapDays: Math.ceil((endDate - lastUpdate) / (1000*60*60*24)) };
```
-/
def planIncrementalUpdate (metadata : Option PlannerMetadata) (now : Int) :
    UpdatePlan :=
  match metadata with
  | Option.none =>
      ⟨.full, .no_metadata, Option.none, some (getEndOfPreviousDay now),
        Option.none⟩
  | some md =>
      let lastUpdate := md.can_update_from
      let endDate := getEndOfPreviousDay now
      if endDate ≤ lastUpdate then
        ⟨.none, .up_to_date, Option.none, Option.none, Option.none⟩
      else
        ⟨.incremental, .gap_detected, some lastUpdate, some endDate,
          some (jsMathCeilDiv (endDate - lastUpdate) msPerDay)⟩

/-- C5 counterexample: for a catalog entry with
`can_update_from = 2024-01-05T00:00:00Z` (`1704412800000`) and
`now = 2024-01-21T12:00:00Z` (`1705838400000`, so "yesterday" is
2024-01-20), the planner returns an incremental plan with
`from = 2024-01-05`, `to = 2024-01-20T23:59:59.999Z` (`1705795199999`) —
but `gap_days = 16`, not `15` as the claim states, because the gap of 15
days, 23 h, 59 min, 59.999 s is rounded up by `Math.ceil`. -/
theorem plan_gap_days_counterexample :
    (planIncrementalUpdate (some ⟨1704412800000⟩) 1705838400000).updateType =
        .incremental ∧
    (planIncrementalUpdate (some ⟨1704412800000⟩) 1705838400000).fromDate =
        some 1704412800000 ∧
    (planIncrementalUpdate (some ⟨1704412800000⟩) 1705838400000).toDate =
        some 1705795199999 ∧
    (planIncrementalUpdate (some ⟨1704412800000⟩) 1705838400000).gapDays =
        some 16 ∧
    (planIncrementalUpdate (some ⟨1704412800000⟩) 1705838400000).gapDays ≠
        some 15 := by
  decide

/-- C5 (amended): for a catalog entry whose `can_update_from` is
2024-01-05T00:00:00Z when "yesterday" is 2024-01-20 (i.e. `now` is any
instant of 2024-01-21 UTC), the planner returns an incremental plan with
`from = 2024-01-05`, `to = end of yesterday 2024-01-20T23:59:59.999Z` and
`gap_days = 16` (the ceiling of the 15.99998-day gap); with no catalog
entry it returns a full plan; with `can_update_from` at or past the end of
yesterday it returns a none plan. -/
theorem plan_update_cases (now : Int)
    (h1 : 1705795200000 ≤ now) (h2 : now < 1705881600000) :
    planIncrementalUpdate (some ⟨1704412800000⟩) now =
      ⟨.incremental, .gap_detected, some 1704412800000, some 1705795199999,
        some 16⟩ ∧
    (planIncrementalUpdate Option.none now).updateType = .full ∧
    ∀ cuf : Int, 1705795199999 ≤ cuf →
      (planIncrementalUpdate (some ⟨cuf⟩) now).updateType = UpdateType.none := by
  have hsplit : now - 86400000 = (now - 1705795200000) + 19742 * 86400000 := by
    omega
  have hq : (now - 86400000).ediv 86400000 = 19742 := by
    show (now - 86400000) / 86400000 = 19742
    rw [hsplit, Int.add_mul_ediv_right _ _ (by norm_num : (86400000 : Int) ≠ 0),
      Int.ediv_eq_zero_of_lt (by omega) (by omega)]
    norm_num
  have hend : getEndOfPreviousDay now = 1705795199999 := by
    unfold getEndOfPreviousDay msPerDay
    rw [hq]
    norm_num
  refine ⟨?_, rfl, ?_⟩
  · simp only [planIncrementalUpdate, hend]
    norm_num [jsMathCeilDiv, msPerDay]
  · intro cuf hcuf
    simp [planIncrementalUpdate, hend, hcuf]

/-- Witness for the amended planner theorem at
`now = 2024-01-21T12:00:00Z` and `can_update_from` exactly the end of
yesterday. -/
theorem plan_update_cases_witness :
    planIncrementalUpdate (some ⟨1704412800000⟩) 1705838400000 =
      ⟨.incremental, .gap_detected, some 1704412800000, some 1705795199999,
        some 16⟩ ∧
    (planIncrementalUpdate Option.none 1705838400000).updateType = .full ∧
    (planIncrementalUpdate (some ⟨1705795199999⟩) 1705838400000).updateType =
      UpdateType.none :=
  ⟨(plan_update_cases 1705838400000 (by norm_num) (by norm_num)).1,
   (plan_update_cases 1705838400000 (by norm_num) (by norm_num)).2.1,
   (plan_update_cases 1705838400000 (by norm_num) (by norm_num)).2.2
     1705795199999 (by norm_num)⟩

end CrossMarketETL
